import Mathlib

/-!
Shallow embedding of monoxide-auto-indexer (src/index.js): the query-shape
extractor, index-specification normalizer, index cache, reconciler and the
usage-based cleaner, together with theorems settling the frozen claims.
-/

namespace MonoxideAutoIndexer

abbrev Field := String

/-- JS `field.startsWith('-')` (src/index.js line 263). -/
def startsWithDash (s : Field) : Bool :=
  match s.data with
  | [] => false
  | c :: _ => c == '-'

/-- JS `field.startsWith('$')` (src/index.js line 196). -/
def startsWithDollar (s : Field) : Bool :=
  match s.data with
  | [] => false
  | c :: _ => c == '$'

/-- lodash `_.trimStart(k, '-')` (src/index.js line 264): strips every leading dash. -/
def stripDashes (s : Field) : Field :=
  ⟨s.data.dropWhile (fun c => c == '-')⟩

/-- A canonical index key: a JS object field -> direction, modelled as an
association list in insertion order with unique keys. -/
abbrev MongoKey := List (Field × Int)

/-- Does the JS object (association list) already hold key `k`. -/
def hasKey {β : Type} (m : List (Field × β)) (k : Field) : Bool :=
  m.any (fun p => p.1 == k)

/-- JS object key insertion semantics: an existing key keeps its position and
takes the new value, a fresh key is appended. Used to model lodash
`mapKeys` collapse behaviour. -/
def upsert {β : Type} (m : List (Field × β)) (k : Field) (v : β) : List (Field × β) :=
  if hasKey m k then m.map (fun p => if p.1 == k then (p.1, v) else p)
  else m ++ [(k, v)]

/-- Direction assigned by the normalizer: `-1` for a dash-marked field, else `1`
(src/index.js line 263). -/
def dirOf (f : Field) : Int :=
  if startsWithDash f then -1 else 1

/-- The Index Specification Normalizer (src/index.js lines 261-265):
`_(index).mapKeys().mapValues(k => k.startsWith('-') ? -1 : 1)
.mapKeys((v, k) => _.trimStart(k, '-')).value()`.
Stage 1 is `mapKeys()` with the identity iteratee over the array (object keyed by
the field names themselves), stage 2 is `mapValues` assigning directions, stage 3
is `mapKeys` stripping leading dashes; each `mapKeys` collapses duplicates with
JS object insertion semantics. -/
def mongoSpec (index : List Field) : MongoKey :=
  ((index.foldl (fun m f => upsert m f f) ([] : List (Field × Field))).map
      (fun p => (p.1, dirOf p.2))).foldl
    (fun m p => upsert m (stripDashes p.1) p.2) []

/-- lodash `_.isEqual` on two JS objects (src/index.js line 267): same key set
with the same values, independent of insertion order. -/
def keyStructEq (a b : MongoKey) : Bool :=
  a.all (fun p => b.contains p) && b.all (fun p => a.contains p)

/-- Plugin settings with their defaults (src/index.js lines 172-179). -/
structure Settings where
  modelFilter : String → Bool
  indexThrottle : Int
  indexResetOnBuild : Bool
  ignoreCreateErrors : Bool
  sortIndexes : Bool

/-- The `_.defaults` applied at src/index.js lines 173-179. -/
def defaultSettings : Settings :=
  { modelFilter := fun _ => true
    indexThrottle := 1000 * 60
    indexResetOnBuild := true
    ignoreCreateErrors := false
    sortIndexes := false }

/-- One Existing-Index Record as reported by the store (its `key` object). -/
structure ExistingIndex where
  key : MongoKey
deriving DecidableEq, Repr

/-- Result reported by the handlers of a fired hook. -/
inductive HookResult where
  | ok
  | fail (msg : String)
deriving DecidableEq, Repr

/-- The environment one reconciliation candidate meets: the aggregate result of
the build hook handlers, the store's answer to `createIndex` (`none` = success,
`some e` = rejection with error text `e`), and the aggregate result of the
postBuild hook handlers. -/
structure CandidateEnv where
  buildHook : HookResult
  createResult : Option String
  postBuildHook : HookResult
deriving DecidableEq, Repr

/-- Observable outcome of reconciling one candidate (src/index.js lines 260-296). -/
structure CandidateOutcome where
  createIssued : Bool
  buildFired : Bool
  postBuildFired : Bool
  postBuildPayload : Option String
  cacheInvalidated : Bool
  error : Option String
deriving DecidableEq, Repr

/-- Outcome of a candidate skipped because its key already exists. -/
def skippedOutcome : CandidateOutcome :=
  { createIssued := false, buildFired := false, postBuildFired := false
    postBuildPayload := none, cacheInvalidated := false, error := none }

/-- Outcome of the build sub-chain for a missing candidate (src/index.js lines
271-295): the build event fires and its handlers' verdict is discarded
(`()=> next()`), `createIndex` is issued, and `autoIndexer.postBuild` fires with
`buildResult` unset on success, unset when `ignoreCreateErrors` swallows a
rejection, and `err.toString()` otherwise; only a postBuild handler failure
becomes the candidate's error. -/
def buildOutcome (s : Settings) (env : CandidateEnv) : CandidateOutcome :=
  { createIssued := true
    buildFired := true
    postBuildFired := true
    postBuildPayload :=
      match env.createResult with
      | none => none
      | some e => if s.ignoreCreateErrors then none else some e
    cacheInvalidated := env.createResult.isNone && s.indexResetOnBuild
    error :=
      match env.postBuildHook with
      | HookResult.ok => none
      | HookResult.fail m => some m }

/-- The per-candidate reconciliation step (src/index.js lines 260-296): the
membership test `this.existingIndexes.some(i => _.isEqual(i.key, mongoSpec))`
skips an existing candidate with no events; a missing one runs the build
sub-chain. -/
def candidateStep (s : Settings) (ex : List ExistingIndex) (env : CandidateEnv)
    (index : List Field) : CandidateOutcome :=
  if ex.any (fun i => keyStructEq i.key (mongoSpec index)) then skippedOutcome
  else buildOutcome s env

/-- The `.forEach('indexes', ...)` loop over candidates (src/index.js lines
260-296): candidates are processed in list order against the fixed
`existingIndexes` snapshot; a candidate whose sub-chain errors (only a postBuild
handler failure can) aborts the remaining candidates. -/
def reconcile (s : Settings) (ex : List ExistingIndex)
    (envf : List Field → CandidateEnv) :
    List (List Field) → List (List Field × CandidateOutcome) × Option String
  | [] => ([], none)
  | c :: rest =>
    let o := candidateStep s ex (envf c) c
    match o.error with
    | some e => ([(c, o)], some e)
    | none =>
      let r := reconcile s ex envf rest
      ((c, o) :: r.1, r.2)

/-- The canonical keys actually sent to the store's `createIndex` in one run. -/
def createsOf (r : List (List Field × CandidateOutcome)) : List MongoKey :=
  (r.filter (fun p => p.2.createIssued)).map (fun p => mongoSpec p.1)

/-- The create calls of one whole reconciliation run. -/
def runCreates (s : Settings) (ex : List ExistingIndex)
    (envf : List Field → CandidateEnv) (cands : List (List Field)) : List MongoKey :=
  createsOf (reconcile s ex envf cands).1

/-- A query object as seen by the `query` hook: its own enumerable keys in
order, and its `$sort` clause when present (JS: any `$sort` array, even an
empty one, is truthy). -/
structure Query where
  keys : List String
  sort : Option (List Field)
deriving DecidableEq, Repr

/-- `_(q).pickBy((criteria, field) => !field.startsWith('$')).keys()`
(src/index.js lines 195-198): the non-directive filter keys in order. -/
def queryFields (q : Query) : List Field :=
  q.keys.filter (fun f => !startsWithDollar f)

/-- Insertion of one string into a sorted list, stable, by lexicographic order. -/
def insertSorted (a : String) : List String → List String
  | [] => [a]
  | b :: bs => if a ≤ b then a :: b :: bs else b :: insertSorted a bs

/-- JS `Array.sort()` over strings: stable lexicographic sort. -/
def sortStrings (l : List String) : List String :=
  l.foldr insertSorted []

def commaStr : String := ","

/-- Stable insertion by the candidates' comma-joined textual form, modelling
lodash `sortBy(i => i.join(','))`. -/
def insertSortedBy (a : List String) : List (List String) → List (List String)
  | [] => [a]
  | b :: bs =>
    if String.intercalate commaStr a ≤ String.intercalate commaStr b then a :: b :: bs
    else b :: insertSortedBy a bs

def sortCandidateList (l : List (List String)) : List (List String) :=
  l.foldr insertSortedBy []

/-- The Query Shape Extractor (src/index.js lines 190-217): push the non-`$`
filter keys (when non-empty), then `q.$sort` (when present) verbatim; an empty
list is the `SKIP` outcome (`none`); when `sortIndexes` is set each candidate is
sorted and the candidate list sorted by its joined form. -/
def extractCandidates (s : Settings) (q : Query) : Option (List (List Field)) :=
  let fields := queryFields q
  let idxs :=
    (if fields.length != 0 then [fields] else []) ++
    (match q.sort with
     | some srt => [srt]
     | none => [])
  if idxs.length = 0 then none
  else if s.sortIndexes then some (sortCandidateList (idxs.map sortStrings))
  else some idxs

/-- Declared type of a field in the model's meta spec, as far as the blacklist
at src/index.js line 249 cares. -/
inductive MetaType where
  | obj
  | arr
  | other
deriving DecidableEq, Repr

/-- The post-filter dropping candidates holding an `object` or `array` typed
field (src/index.js lines 243-252). -/
def metaFilter (meta : Field → Option MetaType) (cands : List (List Field)) :
    List (List Field) :=
  cands.filter (fun idx => idx.all (fun f =>
    match meta f with
    | none => true
    | some t => !(t == MetaType.obj || t == MetaType.arr)))

/-- The per-model `aiIndexCache` (src/index.js lines 222-233). -/
structure IndexCache where
  created : Int
  indexes : List ExistingIndex
deriving DecidableEq, Repr

/-- The throttled existing-index lookup (src/index.js lines 221-234): fetch from
the store iff the cache is absent or `cache.created < now - indexThrottle`,
storing the result stamped `now`; otherwise return the cached snapshot with no
store access. Returns (result, new cache, whether a store fetch happened). -/
def existingIndexesLookup (s : Settings) (cache : Option IndexCache) (now : Int)
    (stored : List ExistingIndex) : List ExistingIndex × Option IndexCache × Bool :=
  match cache with
  | none => (stored, some ⟨now, stored⟩, true)
  | some c =>
    if c.created < now - s.indexThrottle then (stored, some ⟨now, stored⟩, true)
    else (c.indexes, some c, false)

/-- Observable outcome of one run of the `query` hook (src/index.js lines
187-307): the error handed to `done` (`SKIP` already mapped to success by the
end handler at lines 298-306), whether `autoIndexer.query` fired, how many
build events fired, how many `createIndex` calls were issued, and how many
store round trips happened (the throttled index fetch plus the create calls). -/
structure QueryRunOutcome where
  errMsg : Option String
  queryEventFired : Bool
  buildEventsFired : Nat
  createCalls : Nat
  storeFetches : Nat
deriving DecidableEq, Repr

/-- One run of the `query` hook (src/index.js lines 187-307). The parallel
block launches the extractor, the throttled index lookup and the meta fetch
together, so the index lookup happens even when the extractor signals `SKIP`;
on `SKIP` the end handler calls `done()` with success and neither the
`autoIndexer.query` event nor any build step runs. -/
def queryHookRun (s : Settings) (q : Query) (cache : Option IndexCache) (now : Int)
    (stored : List ExistingIndex) (meta : Field → Option MetaType)
    (envf : List Field → CandidateEnv) : QueryRunOutcome :=
  let fetchRes := existingIndexesLookup s cache now stored
  let fetchCount : Nat := if fetchRes.2.2 then 1 else 0
  match extractCandidates s q with
  | none =>
    { errMsg := none, queryEventFired := false, buildEventsFired := 0
      createCalls := 0, storeFetches := fetchCount }
  | some cands =>
    let cands2 := metaFilter meta cands
    let r := reconcile s fetchRes.1 envf cands2
    { errMsg := r.2
      queryEventFired := true
      buildEventsFired := (r.1.filter (fun p => p.2.buildFired)).length
      createCalls := (r.1.filter (fun p => p.2.createIssued)).length
      storeFetches := fetchCount + (r.1.filter (fun p => p.2.createIssued)).length }

/-- Field metadata consulted by the cleaner's manual-spec exemption: whether the
schema declares the path as intentionally indexed (`indexMeta.index`,
src/index.js line 39). -/
structure FieldMeta where
  idx : Bool
deriving DecidableEq, Repr

/-- One `$indexStats` record for an index: its key object and its
`accesses.ops` hit counter (src/index.js lines 57-73). -/
structure IndexStats where
  key : MongoKey
  hits : Nat
deriving DecidableEq, Repr

/-- A model as the cleaner sees it: identifier, `$indexStats` records, and the
schema meta spec as a path to metadata map. -/
structure CleanModel where
  id : String
  stats : List IndexStats
  fieldMeta : List (Field × FieldMeta)
deriving DecidableEq, Repr

/-- The cleanup candidate built at src/index.js lines 59-73 (plus the meta glued
at lines 107-110): `path` is the FIRST key of the key object, `spec` the key
object, `hits` the operation counter, `meta` the owning model's meta spec. -/
structure CleanIndex where
  path : Field
  spec : MongoKey
  hits : Nat
  meta : List (Field × FieldMeta)
deriving DecidableEq, Repr

/-- lodash `_.get(index.meta, index.path)` modelled as association lookup. -/
def lookupMeta (m : List (Field × FieldMeta)) (k : Field) : Option FieldMeta :=
  (m.find? (fun p => p.1 == k)).map Prod.snd

/-- The `indexFilter` option after `_.defaults`: the default two-predicate
array, a caller-supplied single function, or a caller-supplied array
(src/index.js lines 30-46 and 124-132). -/
inductive IndexFilterOpt where
  | dflt
  | single (f : CleanIndex → Bool)
  | list (fs : List (CleanIndex → Bool))

/-- Cleaner settings after `_.defaults(options, ...)` (src/index.js lines 28-51). -/
structure CleanSettings where
  modelFilter : String → Bool
  indexFilter : IndexFilterOpt
  ignoreErrors : Bool
  ignoreManualSpec : Bool
  dryRun : Bool
  hitMin : Nat

/-- The default cleaner settings (src/index.js lines 28-51). -/
def defaultCleanSettings : CleanSettings :=
  { modelFilter := fun _ => true
    indexFilter := IndexFilterOpt.dflt
    ignoreErrors := true
    ignoreManualSpec := true
    dryRun := false
    hitMin := 100 }

/-- Build one cleanup candidate from a `$indexStats` record (src/index.js lines
59-73): `path: _(i.key).keys().first()`. -/
def mkCleanIndex (meta : List (Field × FieldMeta)) (i : IndexStats) : CleanIndex :=
  { path :=
      match i.key.map Prod.fst with
      | [] => ""
      | k :: _ => k
    spec := i.key
    hits := i.hits
    meta := meta }

/-- First default predicate: `! _.isEqual(_.keys(index.spec), ['_id'])`
(src/index.js line 31). -/
def defaultFilter1 (i : CleanIndex) : Bool :=
  !(i.spec.map Prod.fst == ["_id"])

/-- Second default predicate (src/index.js lines 32-45): passthrough when
`ignoreManualSpec` is off; otherwise consult the meta spec at the candidate's
path — no metadata means eligible, metadata marking the path as indexed means
excluded, other metadata means eligible. -/
def defaultFilter2 (ignoreManualSpec : Bool) (i : CleanIndex) : Bool :=
  if !ignoreManualSpec then true
  else
    match lookupMeta i.meta i.path with
    | none => true
    | some m => if m.idx then false else true

/-- Application of `settings.indexFilter` (src/index.js lines 124-132): a single
function is called directly, an array requires every predicate to pass; the
default IS the two-predicate array of lines 30-46. -/
def applyIndexFilter (s : CleanSettings) (i : CleanIndex) : Bool :=
  match s.indexFilter with
  | IndexFilterOpt.dflt => defaultFilter1 i && defaultFilter2 s.ignoreManualSpec i
  | IndexFilterOpt.single f => f i
  | IndexFilterOpt.list fs => fs.all (fun f => f i)

/-- The hit filter (src/index.js lines 135-138): keep as a drop candidate iff
`settings.hitMin && i.hits < settings.hitMin` (JS truthiness: `hitMin` zero
disables the filter and hence all dropping). -/
def hitFilter (s : CleanSettings) (i : CleanIndex) : Bool :=
  (s.hitMin != 0) && decide (i.hits < s.hitMin)

/-- Observable outcome of one cleaning pass. -/
structure CleanOutcome where
  considered : List CleanIndex
  cleaned : List CleanIndex
  drops : List MongoKey
deriving DecidableEq, Repr

/-- The cleaner `cleanIndexes` (src/index.js lines 21-155): gather candidates
from each model passing `modelFilter` (meta glued only when `ignoreManualSpec`),
flatten, emit `autoIndexer.consider` with the whole list, apply `indexFilter`
then the hit filter, and for each survivor emit `autoIndexer.clean` and, unless
`dryRun`, issue `dropIndex(index.spec)`. -/
def cleanIndexes (s : CleanSettings) (models : List CleanModel) : CleanOutcome :=
  let idxs :=
    ((models.filter (fun m => s.modelFilter m.id)).map (fun m =>
      m.stats.map (mkCleanIndex (if s.ignoreManualSpec then m.fieldMeta else [])))).flatten
  let cands := (idxs.filter (fun i => applyIndexFilter s i)).filter (fun i => hitFilter s i)
  { considered := idxs
    cleaned := cands
    drops := if s.dryRun then [] else cands.map (fun i => i.spec) }

/-- Candidate environment where every hook passes and the store accepts. -/
def envOk : CandidateEnv :=
  { buildHook := HookResult.ok, createResult := none, postBuildHook := HookResult.ok }

/-- Environment where the store rejects `createIndex` with error text `E`. -/
def envCreateFail : CandidateEnv :=
  { buildHook := HookResult.ok, createResult := some "E", postBuildHook := HookResult.ok }

/-- Environment where a build-starting handler reports failure. -/
def envVeto : CandidateEnv :=
  { buildHook := HookResult.fail "veto", createResult := none, postBuildHook := HookResult.ok }

/-- Environment map: the `[name]` candidate meets a rejecting store, others succeed. -/
def envfC1 : List Field → CandidateEnv :=
  fun c => if c == ["name"] then envCreateFail else envOk

/-- Environment map where everything succeeds. -/
def envfOk : List Field → CandidateEnv := fun _ => envOk

/-- A store snapshot holding only the index `{name: 1}`. -/
def exNameOnly : List ExistingIndex := [⟨[("name", 1)]⟩]

/-- A query whose only filter key is a `$` directive and which has no sort. -/
def qDollarOnly : Query := { keys := ["$limit"], sort := none }

/-- A model meta spec declaring nothing. -/
def metaNone : Field → Option MetaType := fun _ => none

/-- A cache entry created at time 0 holding the index `{role: 1}`. -/
def cachedRole : IndexCache := { created := 0, indexes := [⟨[("role", 1)]⟩] }

/-- Cleaner settings where the caller supplied their own all-accepting
`indexFilter`, replacing the default `_id`-excluding predicates. -/
def callerFilterSettings : CleanSettings :=
  { defaultCleanSettings with indexFilter := IndexFilterOpt.single (fun _ => true) }

/-- A model whose only index is the primary-key index, with zero hits. -/
def primaryOnlyModel : CleanModel :=
  { id := "users", stats := [{ key := [("_id", 1)], hits := 0 }], fieldMeta := [] }

/-- A model holding an idle primary-key index next to an idle `{login: 1}`
index, with no schema metadata. -/
def mixedModel : CleanModel :=
  { id := "users"
    stats := [ { key := [("_id", 1)], hits := 0 }
             , { key := [("login", 1)], hits := 0 } ]
    fieldMeta := [] }

/-- A model with an idle unmanaged index, a busy index, and an idle index whose
path is marked as manually indexed. -/
def usersModel : CleanModel :=
  { id := "users"
    stats := [ { key := [("login", 1)], hits := 0 }
             , { key := [("email", 1)], hits := 500 }
             , { key := [("owner", 1)], hits := 0 } ]
    fieldMeta := [("email", ⟨false⟩), ("owner", ⟨true⟩)] }

/-- A model with one idle compound index whose SECOND field is marked as
manually indexed while its first field has no metadata at all. -/
def compoundModel : CleanModel :=
  { id := "books"
    stats := [ { key := [("author", 1), ("title", 1)], hits := 3 } ]
    fieldMeta := [("title", ⟨true⟩)] }

/-- Structural key equality is reflexive. -/
theorem keyStructEq_refl (k : MongoKey) : keyStructEq k k = true := by
  simp [keyStructEq, List.all_eq_true]

/-- A candidate whose canonical key matches an existing index is skipped with
no create call and no events. -/
theorem candidateStep_skip (s : Settings) (ex : List ExistingIndex)
    (env : CandidateEnv) (c : List Field)
    (h : ex.any (fun i => keyStructEq i.key (mongoSpec c)) = true) :
    candidateStep s ex env c = skippedOutcome := by
  unfold candidateStep
  rw [h]
  rfl

/-- A missing candidate takes the build branch. -/
theorem candidateStep_miss (s : Settings) (ex : List ExistingIndex)
    (env : CandidateEnv) (c : List Field)
    (h : ex.any (fun i => keyStructEq i.key (mongoSpec c)) = false) :
    candidateStep s ex env c = buildOutcome s env := by
  unfold candidateStep
  rw [h]
  rfl

/-- A candidate sub-chain errors only through the postBuild hook. -/
theorem candidateStep_error_none (s : Settings) (ex : List ExistingIndex)
    (env : CandidateEnv) (c : List Field) (h : env.postBuildHook = HookResult.ok) :
    (candidateStep s ex env c).error = none := by
  cases hb : ex.any (fun i => keyStructEq i.key (mongoSpec c))
  · rw [candidateStep_miss s ex env c hb]
    simp [buildOutcome, h]
  · rw [candidateStep_skip s ex env c hb]
    rfl

/-- `createIndex` is issued exactly when the candidate key is missing,
regardless of hook results or the store's answer. -/
theorem candidateStep_createIssued (s : Settings) (ex : List ExistingIndex)
    (env : CandidateEnv) (c : List Field) :
    (candidateStep s ex env c).createIssued =
      !(ex.any (fun i => keyStructEq i.key (mongoSpec c))) := by
  cases hb : ex.any (fun i => keyStructEq i.key (mongoSpec c))
  · rw [candidateStep_miss s ex env c hb]
    rfl
  · rw [candidateStep_skip s ex env c hb]
    rfl

/-- Unfolding equation for `reconcile` on a non-empty candidate list. -/
theorem reconcile_cons (s : Settings) (ex : List ExistingIndex)
    (envf : List Field → CandidateEnv) (c : List Field) (rest : List (List Field)) :
    reconcile s ex envf (c :: rest) =
      (match (candidateStep s ex (envf c) c).error with
       | some e => ([(c, candidateStep s ex (envf c) c)], some e)
       | none => ((c, candidateStep s ex (envf c) c) :: (reconcile s ex envf rest).1,
                  (reconcile s ex envf rest).2)) := rfl

/-- When every candidate's postBuild hook passes, reconciliation processes the
whole candidate list in order and reports no error. -/
theorem reconcile_allOk (s : Settings) (ex : List ExistingIndex)
    (envf : List Field → CandidateEnv) :
    ∀ cands : List (List Field),
      (∀ d ∈ cands, (envf d).postBuildHook = HookResult.ok) →
      reconcile s ex envf cands =
        (cands.map (fun c => (c, candidateStep s ex (envf c) c)), none)
  | [], _ => rfl
  | c :: rest, hok => by
    have h1 : (candidateStep s ex (envf c) c).error = none :=
      candidateStep_error_none s ex (envf c) c (hok c (by simp))
    have ih := reconcile_allOk s ex envf rest (fun d hd => hok d (by simp [hd]))
    rw [reconcile_cons, h1, ih]
    rfl

/-- The create calls of a run over well-behaved hooks are exactly the canonical
keys of the candidates missing from the snapshot. -/
theorem createsOf_map (s : Settings) (ex : List ExistingIndex)
    (envf : List Field → CandidateEnv) :
    ∀ cands : List (List Field),
      createsOf (cands.map (fun c => (c, candidateStep s ex (envf c) c))) =
        (cands.filter
          (fun c => !(ex.any (fun i => keyStructEq i.key (mongoSpec c))))).map mongoSpec
  | [] => rfl
  | c :: rest => by
    have ih := createsOf_map s ex envf rest
    cases hb : ex.any (fun i => keyStructEq i.key (mongoSpec c)) <;>
      simp [createsOf, List.filter_cons, candidateStep_createIssued, hb] at ih ⊢ <;>
      exact ih

/-- `runCreates` characterised for runs whose postBuild hooks all pass. -/
theorem runCreates_allOk (s : Settings) (ex : List ExistingIndex)
    (envf : List Field → CandidateEnv) (cands : List (List Field))
    (hok : ∀ d ∈ cands, (envf d).postBuildHook = HookResult.ok) :
    runCreates s ex envf cands =
      (cands.filter
        (fun c => !(ex.any (fun i => keyStructEq i.key (mongoSpec c))))).map mongoSpec := by
  rw [runCreates, reconcile_allOk s ex envf cands hok]
  exact createsOf_map s ex envf cands

/-- A run every candidate of which already exists issues no create call at all,
whatever the hook environments do. -/
theorem runCreates_all_existing (s : Settings) (ex : List ExistingIndex)
    (envf : List Field → CandidateEnv) :
    ∀ cands : List (List Field),
      (∀ d ∈ cands, ex.any (fun i => keyStructEq i.key (mongoSpec d)) = true) →
      runCreates s ex envf cands = []
  | [], _ => rfl
  | c :: rest, hall => by
    have hskip : candidateStep s ex (envf c) c = skippedOutcome :=
      candidateStep_skip s ex (envf c) c (hall c (by simp))
    have ih := runCreates_all_existing s ex envf rest (fun d hd => hall d (by simp [hd]))
    rw [runCreates, reconcile_cons, hskip]
    rw [runCreates] at ih
    exact ih

/-- Appending a fresh key is plain append. -/
theorem upsert_of_not_hasKey {β : Type} (m : List (Field × β)) (k : Field) (v : β)
    (h : hasKey m k = false) : upsert m k v = m ++ [(k, v)] := by
  unfold upsert
  rw [h]
  rfl

/-- `hasKey` over an append splits disjunctively. -/
theorem hasKey_append {β : Type} (m l : List (Field × β)) (k : Field) :
    hasKey (m ++ l) k = (hasKey m k || hasKey l k) := by
  simp [hasKey, List.any_append]

/-- An upsert-fold over pairwise-fresh, pairwise-distinct keys is an append of
the mapped list. -/
theorem foldl_upsert_eq_append {α β : Type} (g : α → Field) (f : α → β) :
    ∀ (l : List α) (m : List (Field × β)),
      (∀ x ∈ l, hasKey m (g x) = false) → (l.map g).Nodup →
      l.foldl (fun acc x => upsert acc (g x) (f x)) m = m ++ l.map (fun x => (g x, f x))
  | [], m, _, _ => by simp
  | x :: xs, m, hm, hnd => by
    have hx : hasKey m (g x) = false := hm x (by simp)
    have hnd2 : (xs.map g).Nodup := by
      simpa using (List.nodup_cons.mp (by simpa using hnd)).2
    have hxnot : g x ∉ xs.map g := (List.nodup_cons.mp (by simpa using hnd)).1
    have hm2 : ∀ y ∈ xs, hasKey (m ++ [(g x, f x)]) (g y) = false := by
      intro y hy
      have h1 : hasKey m (g y) = false := hm y (List.mem_cons_of_mem _ hy)
      have h2 : (g x == g y) = false := by
        rw [beq_eq_false_iff_ne]
        intro hEq
        exact hxnot (hEq ▸ List.mem_map_of_mem g hy)
      rw [hasKey_append, h1]
      simp [hasKey, h2]
    have ih := foldl_upsert_eq_append g f xs (m ++ [(g x, f x)]) hm2 hnd2
    simp only [List.foldl_cons, upsert_of_not_hasKey m (g x) (f x) hx, ih,
      List.map_cons, List.append_assoc, List.singleton_append]

/-- The normalizer on a candidate with pairwise-distinct stripped names is the
field-by-field map assigning each dash-marked field `-1` at its stripped name
and every other field `+1`. -/
theorem mongoSpec_eq_map (index : List Field)
    (hnd : (index.map stripDashes).Nodup) :
    mongoSpec index = index.map (fun f => (stripDashes f, dirOf f)) := by
  have hnd0 : index.Nodup := hnd.of_map
  unfold mongoSpec
  have h1 : index.foldl (fun m f => upsert m f f) ([] : List (Field × Field)) =
      index.map (fun g => (g, g)) := by
    have := foldl_upsert_eq_append (fun g : Field => g) (fun g : Field => g) index []
      (by intro x hx; rfl) (by simpa using hnd0)
    simpa using this
  rw [h1, List.map_map]
  have h2 := foldl_upsert_eq_append (fun p : Field × Int => stripDashes p.1)
    (fun p : Field × Int => p.2)
    (index.map ((fun p : Field × Field => (p.1, dirOf p.2)) ∘ fun g => (g, g))) []
    (by intro x hx; rfl)
    (by simpa [List.map_map, Function.comp] using hnd)
  simpa [List.map_map, Function.comp] using h2

/-- A field with no leading dash survives `stripDashes` unchanged. -/
theorem stripDashes_of_not_dash (f : Field) (h : startsWithDash f = false) :
    stripDashes f = f := by
  obtain ⟨l⟩ := f
  cases l with
  | nil => rfl
  | cons c cs =>
    unfold startsWithDash at h
    simp only at h
    unfold stripDashes
    simp [List.dropWhile_cons, h]

/-- A query whose keys all begin with the directive marker has no filter-derived
fields. -/
theorem queryFields_all_dollar (q : Query)
    (h : ∀ k ∈ q.keys, startsWithDollar k = true) :
    queryFields q = [] := by
  unfold queryFields
  rw [List.filter_eq_nil_iff]
  intro k hk
  simp [h k hk]

/-- Every index of an accepted model appears in the considered list (with the
model's meta glued when `ignoreManualSpec` is on). -/
theorem mem_considered (s : CleanSettings) (models : List CleanModel)
    (m : CleanModel) (st : IndexStats) (hm : m ∈ models)
    (hacc : s.modelFilter m.id = true) (hst : st ∈ m.stats) :
    mkCleanIndex (if s.ignoreManualSpec then m.fieldMeta else []) st ∈
      (cleanIndexes s models).considered := by
  simp only [cleanIndexes, List.mem_flatten, List.mem_map]
  exact ⟨m.stats.map (mkCleanIndex (if s.ignoreManualSpec then m.fieldMeta else [])),
    ⟨m, List.mem_filter.mpr ⟨hm, hacc⟩, rfl⟩,
    List.mem_map_of_mem _ hst⟩

/-- Membership in the cleaned list is membership in the considered list plus
both filter stages. -/
theorem mem_cleaned_iff (s : CleanSettings) (models : List CleanModel)
    (i : CleanIndex) :
    i ∈ (cleanIndexes s models).cleaned ↔
      i ∈ (cleanIndexes s models).considered ∧
      applyIndexFilter s i = true ∧ hitFilter s i = true := by
  have heq : (cleanIndexes s models).cleaned =
      ((cleanIndexes s models).considered.filter
        (fun j => applyIndexFilter s j)).filter (fun j => hitFilter s j) := rfl
  rw [heq]
  constructor
  · intro hi
    have h1 := List.mem_filter.mp hi
    have h2 := List.mem_filter.mp h1.1
    exact ⟨h2.1, h2.2, h1.2⟩
  · intro hi
    exact List.mem_filter.mpr ⟨List.mem_filter.mpr ⟨hi.1, hi.2.1⟩, hi.2.2⟩

/-- Outside dry-run, the drop calls are exactly the cleaned candidates' keys. -/
theorem drops_eq (s : CleanSettings) (models : List CleanModel)
    (hdry : s.dryRun = false) :
    (cleanIndexes s models).drops =
      (cleanIndexes s models).cleaned.map (fun i => i.spec) := by
  simp [cleanIndexes, hdry]

/-- With the default `indexFilter`, no cleaned candidate has the primary-key
key set. -/
theorem cleaned_default_not_primary (s : CleanSettings) (models : List CleanModel)
    (hflt : s.indexFilter = IndexFilterOpt.dflt) :
    ∀ i ∈ (cleanIndexes s models).cleaned, ¬(i.spec.map Prod.fst = ["_id"]) := by
  intro i hi
  have h1 : applyIndexFilter s i = true := ((mem_cleaned_iff s models i).mp hi).2.1
  rw [applyIndexFilter, hflt] at h1
  simp only [Bool.and_eq_true] at h1
  simpa [defaultFilter1] using h1.1

/-- C1: evaluation of the reconciler at the failing configuration. With
`ignoreCreateErrors` unset (the default), a `createIndex` rejection with error
`E` on candidate `[name]` does NOT surface to the query caller — the run's
chain error is `none` — while the postBuild event carries `E` and reconciliation
continues to `[role]`; and with `ignoreCreateErrors` set, the postBuild event
carries NO error payload. This contradicts the claim (and the source's own
option documentation) in both directions. -/
theorem C1_create_error_never_surfaces :
    (reconcile defaultSettings [] envfC1 [["name"], ["role"]]).2 = none ∧
    (reconcile defaultSettings [] envfC1 [["name"], ["role"]]).1.map
      (fun p => p.2.postBuildPayload) = [some "E", none] ∧
    (reconcile defaultSettings [] envfC1 [["name"], ["role"]]).1.map Prod.fst =
      [["name"], ["role"]] ∧
    (candidateStep { defaultSettings with ignoreCreateErrors := true } []
      envCreateFail ["name"]).postBuildPayload = none ∧
    (candidateStep { defaultSettings with ignoreCreateErrors := true } []
      envCreateFail ["name"]).error = none :=
  ⟨rfl, rfl, rfl, rfl, rfl⟩

/-- C2 counterexample: a build-starting handler reporting failure does NOT
abort creation of the candidate and does NOT surface as an error — the
`autoIndexer.build` fire at src/index.js line 274 discards its handlers'
verdict (`()=> next()`), so `createIndex` is still issued. -/
theorem C2_veto_counterexample :
    (candidateStep defaultSettings [] envVeto ["name"]).createIssued = true ∧
    (candidateStep defaultSettings [] envVeto ["name"]).error = none :=
  ⟨rfl, rfl⟩

/-- C2 amended: a failure reported by a handler of the build-starting
notification is discarded by the engine — creation of that missing candidate
still proceeds, the build event still counts as fired, no error surfaces for
the candidate, and all candidates of the query are still processed in order. -/
theorem C2_veto_discarded (s : Settings) (ex : List ExistingIndex)
    (env : CandidateEnv) (c : List Field) (m : String)
    (hv : env.buildHook = HookResult.fail m)
    (hmiss : ex.any (fun i => keyStructEq i.key (mongoSpec c)) = false)
    (hpb : env.postBuildHook = HookResult.ok) :
    (candidateStep s ex env c).createIssued = true ∧
    (candidateStep s ex env c).buildFired = true ∧
    (candidateStep s ex env c).error = none ∧
    ∀ (envf : List Field → CandidateEnv) (cands : List (List Field)),
      (∀ d ∈ cands, (envf d).postBuildHook = HookResult.ok) →
      (reconcile s ex envf cands).1.map Prod.fst = cands ∧
      (reconcile s ex envf cands).2 = none := by
  rw [candidateStep_miss s ex env c hmiss]
  refine ⟨rfl, rfl, by simp [buildOutcome, hpb], ?_⟩
  intro envf cands hok
  rw [reconcile_allOk s ex envf cands hok]
  refine ⟨?_, rfl⟩
  clear hok
  induction cands with
  | nil => rfl
  | cons x xs ih => simpa using ih

/-- C2 witness: the amended behaviour at concrete inputs — the vetoed `[name]`
candidate is still created, and a run over `[[role]]` processes every
candidate. -/
theorem C2_veto_discarded_witness :
    (candidateStep defaultSettings [] envVeto ["name"]).createIssued = true ∧
    (reconcile defaultSettings [] envfOk [["role"]]).1.map Prod.fst = [["role"]] := by
  have h := C2_veto_discarded defaultSettings [] envVeto ["name"] "veto" rfl rfl rfl
  exact ⟨h.1, (h.2.2.2 envfOk [["role"]] (fun d hd => rfl)).1⟩

/-- C7: a candidate whose canonical key structurally equals an existing
record's key is skipped — no create call, no build or postBuild event — and a
second reconciliation run against a store that now also reports the first
run's created keys issues zero further create calls. -/
theorem C7_existing_skipped_and_idempotent (s : Settings)
    (ex : List ExistingIndex) (env : CandidateEnv) (c : List Field)
    (envf envf2 : List Field → CandidateEnv) (cands : List (List Field)) :
    (ex.any (fun i => keyStructEq i.key (mongoSpec c)) = true →
      candidateStep s ex env c = skippedOutcome) ∧
    ((∀ d ∈ cands, (envf d).postBuildHook = HookResult.ok) →
      runCreates s (ex ++ (runCreates s ex envf cands).map ExistingIndex.mk)
        envf2 cands = []) := by
  refine ⟨candidateStep_skip s ex env c, ?_⟩
  intro hok
  apply runCreates_all_existing
  intro d hd
  cases hb : ex.any (fun i => keyStructEq i.key (mongoSpec d))
  · have hmem : mongoSpec d ∈ runCreates s ex envf cands := by
      rw [runCreates_allOk s ex envf cands hok]
      exact List.mem_map_of_mem _ (List.mem_filter.mpr ⟨hd, by simp [hb]⟩)
    rw [List.any_append]
    have h2 : ((runCreates s ex envf cands).map ExistingIndex.mk).any
        (fun i => keyStructEq i.key (mongoSpec d)) = true := by
      rw [List.any_eq_true]
      exact ⟨ExistingIndex.mk (mongoSpec d), List.mem_map_of_mem _ hmem,
        keyStructEq_refl _⟩
    simp [h2]
  · rw [List.any_append]
    simp [hb]

/-- C7 witness: with `{name: 1}` existing, the `[name]` candidate is skipped
outright, and after a first run over `[[name], [role]]` a second run against
the augmented store creates nothing. -/
theorem C7_witness :
    candidateStep defaultSettings exNameOnly envOk ["name"] = skippedOutcome ∧
    runCreates defaultSettings
      (exNameOnly ++
        (runCreates defaultSettings exNameOnly envfOk [["name"], ["role"]]).map
          ExistingIndex.mk)
      envfOk [["name"], ["role"]] = [] := by
  have h := C7_existing_skipped_and_idempotent defaultSettings exNameOnly envOk
    ["name"] envfOk envfOk [["name"], ["role"]]
  exact ⟨h.1 (by decide), h.2 (fun d hd => rfl)⟩

/-- C8: on a candidate whose stripped field names are pairwise distinct (any
candidate denoting a well-formed key object), normalization maps each
dash-prefixed field to `-1` under its stripped name and every other field to
`+1`, in candidate order; in particular `[-name]` normalizes to `{name: -1}`. -/
theorem C8_normalizer (index : List Field)
    (hnd : (index.map stripDashes).Nodup) :
    mongoSpec index = index.map (fun f => (stripDashes f, dirOf f)) ∧
    (∀ f ∈ index, startsWithDash f = true → (stripDashes f, -1) ∈ mongoSpec index) ∧
    (∀ f ∈ index, startsWithDash f = false → (f, 1) ∈ mongoSpec index) ∧
    mongoSpec ["-name"] = [("name", -1)] := by
  have h1 := mongoSpec_eq_map index hnd
  refine ⟨h1, ?_, ?_, rfl⟩
  · intro f hf hdash
    rw [h1]
    have : (stripDashes f, dirOf f) ∈ index.map (fun g => (stripDashes g, dirOf g)) :=
      List.mem_map_of_mem _ hf
    simpa [dirOf, hdash] using this
  · intro f hf hdash
    rw [h1]
    have : (stripDashes f, dirOf f) ∈ index.map (fun g => (stripDashes g, dirOf g)) :=
      List.mem_map_of_mem _ hf
    simpa [dirOf, hdash, stripDashes_of_not_dash f hdash] using this

/-- C8 witness: the normalizer at the concrete candidate `[-name, role]`. -/
theorem C8_normalizer_witness :
    mongoSpec ["-name", "role"] = [("name", -1), ("role", 1)] := by
  have h := (C8_normalizer ["-name", "role"] (by decide)).1
  simpa using h

/-- C3 counterexample: with a caller-supplied `indexFilter` (which REPLACES the
default `_id`-excluding predicates via `_.defaults`), an idle primary-key index
becomes a cleanup candidate and its drop call is issued. -/
theorem C3_primary_key_dropped :
    (cleanIndexes callerFilterSettings [primaryOnlyModel]).drops = [[("_id", 1)]] ∧
    mkCleanIndex [] { key := [("_id", 1)], hits := 0 } ∈
      (cleanIndexes callerFilterSettings [primaryOnlyModel]).cleaned :=
  ⟨rfl, by decide⟩

/-- C3 amended: only under the DEFAULT `indexFilter` is the primary-key index
never a cleanup candidate and never dropped; a caller-supplied `indexFilter`
replaces the default predicates and may admit it. -/
theorem C3_primary_key_default_only (s : CleanSettings) (models : List CleanModel)
    (hflt : s.indexFilter = IndexFilterOpt.dflt) :
    (∀ i ∈ (cleanIndexes s models).cleaned, ¬(i.spec.map Prod.fst = ["_id"])) ∧
    (∀ k ∈ (cleanIndexes s models).drops, ¬(k.map Prod.fst = ["_id"])) := by
  refine ⟨cleaned_default_not_primary s models hflt, ?_⟩
  intro k hk
  cases hdry : s.dryRun
  · rw [drops_eq s models hdry] at hk
    obtain ⟨i, hi, hik⟩ := List.mem_map.mp hk
    rw [← hik]
    exact cleaned_default_not_primary s models hflt i hi
  · have : (cleanIndexes s models).drops = [] := by
      simp [cleanIndexes, hdry]
    rw [this] at hk
    cases hk

/-- C3 witness: with the default settings, cleaning `mixedModel` drops the idle
`{login: 1}` index, and that dropped key is not the primary key. -/
theorem C3_primary_key_default_only_witness :
    ¬((([("login", 1)] : MongoKey)).map Prod.fst = ["_id"]) :=
  (C3_primary_key_default_only defaultCleanSettings [mixedModel] rfl).2
    [("login", 1)] (by decide)

/-- C9: in a cleaning pass with the default filter and `ignoreManualSpec` on, a
non-primary-key index with hits below `hitMin` and no metadata at its path is
dropped; an index with hits at or above `hitMin` is never a candidate (retained
regardless of metadata); and an index whose path metadata marks it manually
indexed is never a candidate. -/
theorem C9_cleaner_rules (s : CleanSettings) (models : List CleanModel)
    (m : CleanModel) (st : IndexStats)
    (hflt : s.indexFilter = IndexFilterOpt.dflt) (hims : s.ignoreManualSpec = true)
    (hdry : s.dryRun = false) (hmin : s.hitMin ≠ 0)
    (hm : m ∈ models) (hacc : s.modelFilter m.id = true) (hst : st ∈ m.stats) :
    (¬(st.key.map Prod.fst = ["_id"]) →
      lookupMeta m.fieldMeta (mkCleanIndex m.fieldMeta st).path = none →
      st.hits < s.hitMin →
      (mkCleanIndex m.fieldMeta st).spec ∈ (cleanIndexes s models).drops) ∧
    (s.hitMin ≤ st.hits →
      mkCleanIndex m.fieldMeta st ∉ (cleanIndexes s models).cleaned) ∧
    (∀ fm : FieldMeta,
      lookupMeta m.fieldMeta (mkCleanIndex m.fieldMeta st).path = some fm →
      fm.idx = true →
      mkCleanIndex m.fieldMeta st ∉ (cleanIndexes s models).cleaned) := by
  refine ⟨?_, ?_, ?_⟩
  · intro hid hmeta hhits
    have hcons : mkCleanIndex m.fieldMeta st ∈ (cleanIndexes s models).considered := by
      have := mem_considered s models m st hm hacc hst
      rwa [hims, if_pos rfl] at this
    have happ : applyIndexFilter s (mkCleanIndex m.fieldMeta st) = true := by
      rw [applyIndexFilter, hflt]
      have h1 : defaultFilter1 (mkCleanIndex m.fieldMeta st) = true := by
        simp [defaultFilter1, mkCleanIndex]
        exact hid
      have h2 : defaultFilter2 s.ignoreManualSpec (mkCleanIndex m.fieldMeta st) = true := by
        rw [hims, defaultFilter2]
        simp only [mkCleanIndex] at hmeta ⊢
        rw [hmeta]
        simp
      rw [h1, h2]
      rfl
    have hhit : hitFilter s (mkCleanIndex m.fieldMeta st) = true := by
      simp [hitFilter, mkCleanIndex, hhits]
      omega
    rw [drops_eq s models hdry]
    exact List.mem_map_of_mem _
      ((mem_cleaned_iff s models _).mpr ⟨hcons, happ, hhit⟩)
  · intro hbusy hmem
    have hhit : hitFilter s (mkCleanIndex m.fieldMeta st) = true :=
      ((mem_cleaned_iff s models _).mp hmem).2.2
    simp [hitFilter, mkCleanIndex] at hhit
    omega
  · intro fm hfm hidx hmem
    have happ : applyIndexFilter s (mkCleanIndex m.fieldMeta st) = true :=
      ((mem_cleaned_iff s models _).mp hmem).2.1
    rw [applyIndexFilter, hflt] at happ
    simp only [Bool.and_eq_true] at happ
    have h2 := happ.2
    rw [hims, defaultFilter2] at h2
    simp only [mkCleanIndex] at hfm
    simp only [mkCleanIndex, hfm, hidx] at h2
    simp at h2

/-- C9 witness: in `usersModel` under default settings, the idle unmanaged
`{login: 1}` index is dropped, the busy `{email: 1}` index is retained, and the
idle but manually-declared `{owner: 1}` index is excluded from cleaning. -/
theorem C9_cleaner_rules_witness :
    (mkCleanIndex usersModel.fieldMeta { key := [("login", 1)], hits := 0 }).spec ∈
      (cleanIndexes defaultCleanSettings [usersModel]).drops ∧
    mkCleanIndex usersModel.fieldMeta { key := [("email", 1)], hits := 500 } ∉
      (cleanIndexes defaultCleanSettings [usersModel]).cleaned ∧
    mkCleanIndex usersModel.fieldMeta { key := [("owner", 1)], hits := 0 } ∉
      (cleanIndexes defaultCleanSettings [usersModel]).cleaned := by
  have h1 := C9_cleaner_rules defaultCleanSettings [usersModel] usersModel
    { key := [("login", 1)], hits := 0 } rfl rfl rfl (by decide) (by decide) rfl
    (by decide)
  have h2 := C9_cleaner_rules defaultCleanSettings [usersModel] usersModel
    { key := [("email", 1)], hits := 500 } rfl rfl rfl (by decide) (by decide) rfl
    (by decide)
  have h3 := C9_cleaner_rules defaultCleanSettings [usersModel] usersModel
    { key := [("owner", 1)], hits := 0 } rfl rfl rfl (by decide) (by decide) rfl
    (by decide)
  exact ⟨h1.1 (by decide) (by decide) (by decide), h2.2.1 (by decide),
    h3.2.2 ⟨true⟩ (by decide) rfl⟩

/-- C10: the manual-spec exemption consults the metadata of only the FIRST
field of an index's key, so a multi-field index whose first field has no
metadata stays eligible for cleaning — and, when idle, is dropped — no matter
what metadata any later field carries. -/
theorem C10_first_field_only (s : CleanSettings) (models : List CleanModel)
    (m : CleanModel) (st : IndexStats) (f1 f2 : Field) (d1 d2 : Int)
    (hflt : s.indexFilter = IndexFilterOpt.dflt) (hims : s.ignoreManualSpec = true)
    (hdry : s.dryRun = false) (hmin : s.hitMin ≠ 0)
    (hm : m ∈ models) (hacc : s.modelFilter m.id = true) (hst : st ∈ m.stats)
    (hkey : st.key = [(f1, d1), (f2, d2)])
    (hmeta1 : lookupMeta m.fieldMeta f1 = none)
    (hhits : st.hits < s.hitMin) :
    defaultFilter2 s.ignoreManualSpec (mkCleanIndex m.fieldMeta st) = true ∧
    mkCleanIndex m.fieldMeta st ∈ (cleanIndexes s models).cleaned ∧
    (mkCleanIndex m.fieldMeta st).spec ∈ (cleanIndexes s models).drops := by
  have hpath : (mkCleanIndex m.fieldMeta st).path = f1 := by
    simp [mkCleanIndex, hkey]
  have hf2 : defaultFilter2 s.ignoreManualSpec (mkCleanIndex m.fieldMeta st) = true := by
    rw [hims, defaultFilter2]
    simp only [mkCleanIndex] at hpath ⊢
    rw [hpath, hmeta1]
    simp
  refine ⟨hf2, ?_, ?_⟩
  · have hcons : mkCleanIndex m.fieldMeta st ∈ (cleanIndexes s models).considered := by
      have := mem_considered s models m st hm hacc hst
      rwa [hims, if_pos rfl] at this
    have happ : applyIndexFilter s (mkCleanIndex m.fieldMeta st) = true := by
      rw [applyIndexFilter, hflt]
      have h1 : defaultFilter1 (mkCleanIndex m.fieldMeta st) = true := by
        simp [defaultFilter1, mkCleanIndex, hkey]
      rw [h1, hf2]
      rfl
    have hhit : hitFilter s (mkCleanIndex m.fieldMeta st) = true := by
      simp [hitFilter, mkCleanIndex, hhits]
      omega
    exact (mem_cleaned_iff s models _).mpr ⟨hcons, happ, hhit⟩
  · rw [drops_eq s models hdry]
    apply List.mem_map_of_mem
    have hcons : mkCleanIndex m.fieldMeta st ∈ (cleanIndexes s models).considered := by
      have := mem_considered s models m st hm hacc hst
      rwa [hims, if_pos rfl] at this
    have happ : applyIndexFilter s (mkCleanIndex m.fieldMeta st) = true := by
      rw [applyIndexFilter, hflt]
      have h1 : defaultFilter1 (mkCleanIndex m.fieldMeta st) = true := by
        simp [defaultFilter1, mkCleanIndex, hkey]
      rw [h1, hf2]
      rfl
    have hhit : hitFilter s (mkCleanIndex m.fieldMeta st) = true := by
      simp [hitFilter, mkCleanIndex, hhits]
      omega
    exact (mem_cleaned_iff s models _).mpr ⟨hcons, happ, hhit⟩

/-- C10 witness: the idle compound index `{author: 1, title: 1}` of
`compoundModel` is cleaned and dropped although its second field `title` is
marked as manually indexed — only the first field's (absent) metadata counts. -/
theorem C10_first_field_only_witness :
    mkCleanIndex compoundModel.fieldMeta
      { key := [("author", 1), ("title", 1)], hits := 3 } ∈
      (cleanIndexes defaultCleanSettings [compoundModel]).cleaned ∧
    lookupMeta compoundModel.fieldMeta "title" = some ⟨true⟩ := by
  have h := C10_first_field_only defaultCleanSettings [compoundModel] compoundModel
    { key := [("author", 1), ("title", 1)], hits := 3 } "author" "title" 1 1
    rfl rfl rfl (by decide) (by decide) rfl (by decide) rfl (by decide) (by decide)
  exact ⟨h.2.1, rfl⟩

/-- C4 counterexample: at the throttle boundary `now - created = indexThrottle`
the claim's freshness predicate `now - created < indexThrottle` is false, yet
the lookup performs NO store fetch and returns the cached snapshot — the code's
staleness test is `created < now - indexThrottle`, strict on the other side. -/
theorem C4_boundary_counterexample :
    ¬((60000 : Int) - cachedRole.created < defaultSettings.indexThrottle) ∧
    existingIndexesLookup defaultSettings (some cachedRole) 60000 [] =
      (cachedRole.indexes, some cachedRole, false) :=
  ⟨by decide, rfl⟩

/-- C4 amended: an entry is fresh iff `now - created ≤ indexThrottle` (the code
keeps the boundary point fresh). A fresh lookup returns the cached snapshot
with no store access and leaves the cache untouched; a lookup past the window,
or with no entry, fetches from the store and stores the result stamped with the
current time. -/
theorem C4_cache_freshness (s : Settings) (c : IndexCache) (now : Int)
    (stored : List ExistingIndex) :
    (now - c.created ≤ s.indexThrottle →
      existingIndexesLookup s (some c) now stored = (c.indexes, some c, false)) ∧
    (s.indexThrottle < now - c.created →
      existingIndexesLookup s (some c) now stored = (stored, some ⟨now, stored⟩, true)) ∧
    existingIndexesLookup s none now stored = (stored, some ⟨now, stored⟩, true) := by
  refine ⟨?_, ?_, rfl⟩
  · intro h
    show (if c.created < now - s.indexThrottle
      then (stored, some (⟨now, stored⟩ : IndexCache), true)
      else (c.indexes, some c, false)) = (c.indexes, some c, false)
    rw [if_neg (by omega)]
  · intro h
    show (if c.created < now - s.indexThrottle
      then (stored, some (⟨now, stored⟩ : IndexCache), true)
      else (c.indexes, some c, false)) = (stored, some ⟨now, stored⟩, true)
    rw [if_pos (by omega)]

/-- C4 witness: the amended freshness rule at concrete times — at the boundary
the cached snapshot is served without a fetch, one tick later the store is
fetched and re-stamped. -/
theorem C4_cache_freshness_witness :
    existingIndexesLookup defaultSettings (some cachedRole) 60000 [] =
      (cachedRole.indexes, some cachedRole, false) ∧
    existingIndexesLookup defaultSettings (some cachedRole) 60001 [] =
      ([], some ⟨60001, []⟩, true) := by
  have h1 := C4_cache_freshness defaultSettings cachedRole 60000 []
  have h2 := C4_cache_freshness defaultSettings cachedRole 60001 []
  exact ⟨h1.1 (by decide), h2.2.1 (by decide)⟩

/-- C5 counterexample: a query whose only filter key is a `$` directive, hit
with an empty cache, completes as success with no query/build events and no
create call, BUT the per-query operation still performs a store round trip —
the existing-index fetch is launched in the same parallel block before the
extractor's SKIP can short-circuit it. -/
theorem C5_skip_still_fetches :
    queryHookRun defaultSettings qDollarOnly none 0 exNameOnly metaNone envfOk =
      { errMsg := none, queryEventFired := false, buildEventsFired := 0
        createCalls := 0, storeFetches := 1 } :=
  rfl

/-- C5 amended: for every query whose filter keys all begin with `$` (or which
has no keys) and which has no sort clause, the extractor yields no candidates
(the SKIP outcome), and the per-query operation completes as success with no
query/build events and no create call; the throttled existing-index fetch of
the parallel block may still run. -/
theorem C5_no_candidates_success (s : Settings) (q : Query)
    (cache : Option IndexCache) (now : Int) (stored : List ExistingIndex)
    (meta : Field → Option MetaType) (envf : List Field → CandidateEnv)
    (hk : ∀ k ∈ q.keys, startsWithDollar k = true) (hs : q.sort = none) :
    extractCandidates s q = none ∧
    queryHookRun s q cache now stored meta envf =
      { errMsg := none, queryEventFired := false, buildEventsFired := 0
        createCalls := 0
        storeFetches :=
          if (existingIndexesLookup s cache now stored).2.2 then 1 else 0 } := by
  have hqf : queryFields q = [] := queryFields_all_dollar q hk
  have hex : extractCandidates s q = none := by
    simp [extractCandidates, hqf, hs]
  refine ⟨hex, ?_⟩
  unfold queryHookRun
  rw [hex]

/-- C5 witness: the amended behaviour at the concrete `$`-only query. -/
theorem C5_no_candidates_success_witness :
    extractCandidates defaultSettings qDollarOnly = none ∧
    queryHookRun defaultSettings qDollarOnly none 0 exNameOnly metaNone envfOk =
      { errMsg := none, queryEventFired := false, buildEventsFired := 0
        createCalls := 0, storeFetches := 1 } := by
  have h := C5_no_candidates_success defaultSettings qDollarOnly none 0 exNameOnly
    metaNone envfOk (by decide) rfl
  exact ⟨h.1, h.2⟩

/-- C6: with `sortIndexes` off, a query with non-`$` filter keys and a sort
clause yields exactly two candidates — first the filter-derived one holding
exactly the non-`$` filter keys in filter order (all ascending: its canonical
key maps every field to `+1`), then the sort clause verbatim — and
reconciliation attempts them in that order. -/
theorem C6_candidate_order (s : Settings) (q : Query) (srt : List Field)
    (hsi : s.sortIndexes = false) (hf : queryFields q ≠ [])
    (hs : q.sort = some srt)
    (hnd : ((queryFields q).map stripDashes).Nodup)
    (hasc : ∀ f ∈ queryFields q, startsWithDash f = false) :
    extractCandidates s q = some [queryFields q, srt] ∧
    mongoSpec (queryFields q) = (queryFields q).map (fun f => (f, 1)) ∧
    ∀ (ex : List ExistingIndex) (envf : List Field → CandidateEnv),
      (envf (queryFields q)).postBuildHook = HookResult.ok →
      (reconcile s ex envf [queryFields q, srt]).1.map Prod.fst =
        [queryFields q, srt] := by
  refine ⟨?_, ?_, ?_⟩
  · simp [extractCandidates, hs, hsi, hf]
  · rw [mongoSpec_eq_map (queryFields q) hnd]
    apply List.map_congr_left
    intro f hfm
    rw [stripDashes_of_not_dash f (hasc f hfm)]
    simp [dirOf, hasc f hfm]
  · intro ex envf hok
    have h1 : (candidateStep s ex (envf (queryFields q)) (queryFields q)).error = none :=
      candidateStep_error_none s ex _ _ hok
    rw [reconcile_cons, h1]
    cases h2 : (candidateStep s ex (envf srt) srt).error <;>
      simp [reconcile_cons, h2, reconcile]

/-- C6 witness: for filter key `role` (with a `$sort` directive key present)
and sort `[name]`, the extractor yields `[[role], [name]]` in that order and a
reconciliation run attempts them in that order. -/
theorem C6_candidate_order_witness :
    extractCandidates defaultSettings { keys := ["role", "$sort"], sort := some ["name"] } =
      some [["role"], ["name"]] ∧
    (reconcile defaultSettings [] envfOk [["role"], ["name"]]).1.map Prod.fst =
      [["role"], ["name"]] := by
  have h := C6_candidate_order defaultSettings
    { keys := ["role", "$sort"], sort := some ["name"] } ["name"]
    rfl (by decide) rfl (by decide) (by decide)
  exact ⟨h.1, by
    have h3 := h.2.2 [] envfOk rfl
    simpa using h3⟩

end MonoxideAutoIndexer
